import Mathlib

/-!
# Verification of the bcvk ephemeral-VM launcher and base-disk cache

Shallow embedding of the functions of the bcvk repository that the
specification describes, together with theorems settling the spec's claims.
Strings from the source are modelled as `List Char` (written via `String`
literals and `.toList` where convenient); fallible code returns `Except`;
file systems and subprocess results are passed explicitly.
-/

namespace Bcvk


/-! ## Shared string utilities

Models of the Rust standard-library string operations the sources use.
-/

/-- Model of Rust `str::contains(needle)`: `needle` occurs as a contiguous
substring of `hay`.  Executable infix check on char lists. -/
def listIsInfix (needle hay : List Char) : Bool :=
  decide (needle <:+: hay)

/-- Model of Rust `str::contains` on strings. -/
def strContains (hay needle : String) : Bool :=
  listIsInfix needle.toList hay.toList

/-- Model of Rust `Vec::join(sep)` for a vector of strings. -/
def joinWith (sep : String) : List String → String
  | [] => ""
  | [x] => x
  | x :: rest => x ++ sep ++ joinWith sep rest

/-- Model of Rust `str::starts_with(prefix)`. -/
def strStartsWith (s pre : String) : Bool :=
  pre.toList.isPrefixOf s.toList

/-- Model of Rust `str::strip_prefix(prefix)`. -/
def stripPrefixStr (s pre : String) : Option String :=
  if strStartsWith s pre then some ⟨s.toList.drop pre.toList.length⟩ else none

/-! ## C5 — ephemeral run: QEMU exit status handling

From `src/crates/kit/src/run_ephemeral.rs`, `run` (lines 217-238): a QEMU
exit status is accepted when it is 0, or when it is 1 and the joined
user kernel args contain `poweroff.target`; any other exit code and any
termination by signal is an error.
-/

/-- Model of `std::process::ExitStatus`: either a normal exit with a code,
or termination by a signal (in which case `.code()` is `None`). -/
inductive ExitStatus where
  | exited (code : Int)
  | signaled
deriving DecidableEq

/-- `ExitStatus::success()`: true exactly for exit code 0. -/
def ExitStatus.success : ExitStatus → Bool
  | .exited 0 => true
  | _ => false

/-- Embedding of the exit-status handling of `run` in `run_ephemeral.rs`
(lines 217-238).  `kernel_args` are the user-supplied `--karg` values;
the code joins them with `" "` and tests substring containment of
`poweroff.target`. -/
def runExitResult (status : ExitStatus) (kernel_args : List String) :
    Except String Unit :=
  if status.success then .ok ()
  else
    match status with
    | .exited code =>
        let kargs_str := joinWith " " kernel_args
        if code = 1 ∧ strContains kargs_str "poweroff.target" then .ok ()
        else .error ("QEMU exited with non-zero status: " ++ toString code)
    | .signaled => .error "QEMU terminated by signal"

/-! ## C7 — virtiofs mount unit generation

From `src/crates/kit/src/credentials.rs`, `generate_mount_unit`
(lines 48-69).  The exact string the source assembles.
-/

/-- Embedding of `generate_mount_unit` from `credentials.rs`: the unit file
content produced for a virtiofs tag, guest path and readonly flag. -/
def generate_mount_unit (virtiofs_tag guest_path : String) (readonly : Bool) :
    String :=
  let options := if readonly then "Options=ro" else "Options=rw"
  "[Unit]\nDescription=Mount virtiofs tag " ++ virtiofs_tag ++ " at " ++
    guest_path ++ "\nConditionPathExists=!/etc/initrd-release\n" ++
    "DefaultDependencies=no\nConflicts=umount.target\n" ++
    "Before=local-fs.target umount.target\n" ++
    "After=systemd-remount-fs.service\n\n[Mount]\nWhat=" ++ virtiofs_tag ++
    "\nWhere=" ++ guest_path ++ "\nType=virtiofs\n" ++ options ++ "\n"

/-! ## C9 — guest path to systemd mount-unit name

From `src/crates/kit/src/credentials.rs`, `guest_path_to_unit_name`
(lines 22-33): strip one leading `/`, split into components at `/`,
replace each `-` inside a component by the four characters `\x2d`,
join the components with `-`, append `.mount`.  Paths are modelled as
`List Char`.
-/

/-- Model of Rust `str::split('/')`: the list of components between the
slashes (empty components included, as in Rust). -/
def splitSlash : List Char → List (List Char)
  | [] => [[]]
  | c :: t =>
      if c = '/' then [] :: splitSlash t
      else
        match splitSlash t with
        | [] => [[c]]
        | h :: r => (c :: h) :: r

/-- Model of Rust `Vec::join("-")` on char-list components. -/
def joinDash : List (List Char) → List Char
  | [] => []
  | [x] => x
  | x :: rest => x ++ '-' :: joinDash rest

/-- Model of Rust `str::replace('-', "\\x2d")` on one path component. -/
def escComponent (c : List Char) : List Char :=
  c.flatMap fun ch => if ch = '-' then ['\\', 'x', '2', 'd'] else [ch]

/-- Model of Rust `str::strip_prefix('/').unwrap_or(s)`. -/
def stripLeadingSlash : List Char → List Char
  | '/' :: t => t
  | p => p

/-- Embedding of `guest_path_to_unit_name` from `credentials.rs`
(lines 22-33). -/
def guest_path_to_unit_name (guest_path : List Char) : List Char :=
  let path := stripLeadingSlash guest_path
  let escaped := joinDash ((splitSlash path).map escComponent)
  escaped ++ ".mount".toList

/-- The per-character action of the escape: `/` becomes `-`, `-` becomes
the four characters `\x2d`, everything else is unchanged.  (Splitting at
`/`, escaping dashes in each component and rejoining with `-` is exactly
this character-wise substitution.) -/
def escChar (c : Char) : List Char :=
  if c = '/' then ['-']
  else if c = '-' then ['\\', 'x', '2', 'd'] else [c]

/-- The inverse of the `\x2d` escape: scan left to right, turning each
literal `\x2d` back into `-`. -/
def unrepl : List Char → List Char
  | '\\' :: 'x' :: '2' :: 'd' :: r => '-' :: unrepl r
  | c :: t => c :: unrepl t
  | [] => []

/-- The unescaping that corresponds to the systemd escape rules used by
`guest_path_to_unit_name`: drop the `.mount` suffix, turn dashes back into
slashes, turn each `\x2d` back into a dash, and restore the leading slash. -/
def unescape_unit_name (u : List Char) : List Char :=
  '/' :: unrepl ((u.take (u.length - 6)).map fun c => if c = '-' then '/' else c)

/-! ## C3/C4 — kernel discovery

From `src/crates/kit/src/kernel.rs` (lines 53-87 and helpers).  The image
root is modelled as a pure directory tree; directory-entry iteration order
is the order of the entry list.  `cap_std` directory operations are
modelled so that a missing path yields `none` (NotFound) and opening a
file where a directory is required yields an I/O error.
-/

/-- A node of the modelled file-system tree. -/
inductive FsNode where
  | file
  | dir (entries : List (String × FsNode))

/-- Whether a node is a directory (Rust `file_type()?.is_dir()`). -/
def FsNode.isDir : FsNode → Bool
  | .dir _ => true
  | .file => false

/-- Whether a node is a regular file (Rust `file_type()?.is_file()`). -/
def FsNode.isFile : FsNode → Bool
  | .file => true
  | .dir _ => false

/-- Look up a name among a directory's entries. -/
def childNode (es : List (String × FsNode)) (name : String) : Option FsNode :=
  (es.find? fun e => e.1 == name).map (·.2)

/-- Model of `Dir::open_dir_optional` along a multi-component relative path:
`ok none` when some component is missing (NotFound), an error when a
non-final lookup hits a regular file or the final component is a regular
file (NotADirectory), and the target directory's entries otherwise. -/
def walkPath (es : List (String × FsNode)) :
    List String → Except String (Option (List (String × FsNode)))
  | [] => .ok (some es)
  | name :: rest =>
      match childNode es name with
      | none => .ok none
      | some .file => .error "I/O error"
      | some (.dir sub) => walkPath sub rest

/-- `KernelInfo` from `kernel.rs` (lines 30-38). -/
structure KernelInfo where
  kernel_path : String
  initramfs_path : Option String
  is_uki : Bool
deriving DecidableEq

/-- Model of Rust `Path::extension()` on a directory-entry name: the part
after the last `.`, or `none` when there is no `.` or the only `.` is the
leading character (hidden files such as `.efi` have no extension). -/
def extensionOf (name : String) : Option String :=
  let rev := name.toList.reverse
  let revExt := rev.takeWhile (· ≠ '.')
  match rev.dropWhile (· ≠ '.') with
  | [] => none
  | _ :: stemRev => if stemRev.isEmpty then none else some ⟨revExt.reverse⟩

/-- `is_uki_file` from `kernel.rs`: the name's extension is `efi`. -/
def is_uki_file (name : String) : Bool :=
  extensionOf name == some "efi"

/-- `find_ukis_in_esp` from `kernel.rs` (lines 97-121): every entry of
`boot/EFI/Linux` whose name has the `.efi` extension (the entry's file type
is not examined). -/
def find_ukis_in_esp (root : List (String × FsNode)) :
    Except String (List KernelInfo) :=
  match walkPath root ["boot"] with
  | .error e => .error e
  | .ok none => .ok []
  | .ok (some boot) =>
      match walkPath boot ["EFI", "Linux"] with
      | .error e => .error e
      | .ok none => .ok []
      | .ok (some efiLinux) =>
          .ok (efiLinux.filterMap fun e =>
            if is_uki_file e.1 then
              some ⟨"boot/EFI/Linux/" ++ e.1, none, true⟩
            else none)

/-- `open_modules_dir` from `kernel.rs` (lines 124-129). -/
def open_modules_dir (root : List (String × FsNode)) :
    Except String (Option (List (String × FsNode))) :=
  match walkPath root ["usr", "lib"] with
  | .error e => .error e
  | .ok none => .ok none
  | .ok (some usr_lib) => walkPath usr_lib ["modules"]

/-- `find_ukis_in_version_dir` from `kernel.rs` (lines 204-216): names of
regular files with the `.efi` extension. -/
def find_ukis_in_version_dir (version_dir : List (String × FsNode)) :
    List String :=
  version_dir.filterMap fun e =>
    if is_uki_file e.1 && e.2.isFile then some e.1 else none

/-- `find_ukis_in_modules` from `kernel.rs` (lines 132-164): UKIs inside
each directory entry of `usr/lib/modules`. -/
def find_ukis_in_modules (root : List (String × FsNode)) :
    Except String (List KernelInfo) :=
  match open_modules_dir root with
  | .error e => .error e
  | .ok none => .ok []
  | .ok (some modules) =>
      .ok (modules.flatMap fun e =>
        match e.2 with
        | .file => []
        | .dir version_dir =>
            (find_ukis_in_version_dir version_dir).map fun n =>
              ⟨"usr/lib/modules/" ++ e.1 ++ "/" ++ n, none, true⟩)

/-- `has_traditional_kernel` from `kernel.rs` (lines 219-221): the version
directory contains both `vmlinuz` and `initramfs.img`. -/
def has_traditional_kernel (version_dir : List (String × FsNode)) : Bool :=
  (childNode version_dir "vmlinuz").isSome &&
    (childNode version_dir "initramfs.img").isSome

/-- `find_traditional_kernels_in_modules` from `kernel.rs` (lines 167-201). -/
def find_traditional_kernels_in_modules (root : List (String × FsNode)) :
    Except String (List KernelInfo) :=
  match open_modules_dir root with
  | .error e => .error e
  | .ok none => .ok []
  | .ok (some modules) =>
      .ok (modules.flatMap fun e =>
        match e.2 with
        | .file => []
        | .dir version_dir =>
            if has_traditional_kernel version_dir then
              [⟨"usr/lib/modules/" ++ e.1 ++ "/vmlinuz",
                some ("usr/lib/modules/" ++ e.1 ++ "/initramfs.img"), false⟩]
            else [])

/-- The `bail!` message listing every found kernel path, as formatted by
`find_kernel`. -/
def multipleMsg (n : Nat) (kind : String) (paths : List String) : String :=
  "Found " ++ toString n ++ " " ++ kind ++ ", expected exactly one:\n  " ++
    joinWith "\n  " paths

/-- Embedding of `find_kernel` from `kernel.rs` (lines 53-87): UKIs (ESP
first, then modules) take precedence; with at least one UKI, exactly one is
required; otherwise exactly one traditional kernel is required, and zero
kernels yield `ok none`. -/
def find_kernel (root : List (String × FsNode)) :
    Except String (Option KernelInfo) :=
  match find_ukis_in_esp root with
  | .error e => .error e
  | .ok espUkis =>
      match find_ukis_in_modules root with
      | .error e => .error e
      | .ok modUkis =>
          let ukis := espUkis ++ modUkis
          if ukis.isEmpty then
            match find_traditional_kernels_in_modules root with
            | .error e => .error e
            | .ok traditional =>
                match traditional with
                | [] => .ok none
                | [k] => .ok (some k)
                | ks =>
                    .error (multipleMsg ks.length "traditional kernels"
                      (ks.map (·.kernel_path)))
          else
            match ukis with
            | [u] => .ok (some u)
            | ks =>
                .error (multipleMsg ks.length "UKIs" (ks.map (·.kernel_path)))

/-- The claim's notion of "image root containing at least one UKI": a
regular file with the `.efi` extension under `boot/EFI/Linux/`, or under a
directory entry of `usr/lib/modules`. -/
def containsUKIFile (root : List (String × FsNode)) : Bool :=
  (match walkPath root ["boot"] with
   | .ok (some boot) =>
       match walkPath boot ["EFI", "Linux"] with
       | .ok (some es) => es.any fun e => is_uki_file e.1 && e.2.isFile
       | _ => false
   | _ => false) ||
  (match open_modules_dir root with
   | .ok (some modules) =>
       modules.any fun e =>
         match e.2 with
         | .dir vd => vd.any fun x => is_uki_file x.1 && x.2.isFile
         | .file => false
   | _ => false)

/-- Concrete image root used to witness C3: one UKI in the ESP and one
traditional kernel in the modules tree. -/
def c3WitnessRoot : List (String × FsNode) :=
  [("boot", FsNode.dir [("EFI", FsNode.dir [("Linux", FsNode.dir
      [("fedora.efi", FsNode.file)])])]),
   ("usr", FsNode.dir [("lib", FsNode.dir [("modules", FsNode.dir
      [("6.1", FsNode.dir [("vmlinuz", FsNode.file),
        ("initramfs.img", FsNode.file)])])])])]

/-- Concrete image root used to witness C4: two UKIs in the ESP. -/
def c4WitnessRoot : List (String × FsNode) :=
  [("boot", FsNode.dir [("EFI", FsNode.dir [("Linux", FsNode.dir
      [("aaa.efi", FsNode.file), ("bbb.efi", FsNode.file)])])])]

/-- Model of Rust `str::ends_with(suffix)`. -/
def strEndsWith (s suffix : String) : Bool :=
  suffix.toList.isSuffixOf s.toList

/-! ## C8 — initramfs units CPIO archive

From `src/crates/kit/src/cpio.rs`, `create_initramfs_units_cpio`
(lines 36-90).  The archive is modelled at entry level: the external
`cpio` crate's newc serialization is kept abstract.  The four bundled
service-unit contents come from `include_bytes!("units/…")`, whose source
files are not part of the embedded sources, so they are parameters; the
drop-in contents are byte-string literals of `cpio.rs` itself.
-/

/-- A CPIO entry: a directory, a file with its content, or the newc
trailer record appended at the end. -/
inductive CpioEntry where
  | dir (path : String)
  | file (path : String) (content : String)
  | trailer
deriving DecidableEq

/-- Embedding of `create_initramfs_units_cpio` from `cpio.rs`
(lines 36-90), at entry level. -/
def create_initramfs_units_cpio
    (etcOverlayUnit varEphemeralUnit copyUnitsUnit journalStreamUnit :
      String) : List CpioEntry :=
  [.dir "usr",
   .dir "usr/lib",
   .dir "usr/lib/systemd",
   .dir "usr/lib/systemd/system",
   .dir "usr/lib/systemd/system/initrd-fs.target.d",
   .file "usr/lib/systemd/system/bcvk-etc-overlay.service" etcOverlayUnit,
   .file "usr/lib/systemd/system/bcvk-var-ephemeral.service" varEphemeralUnit,
   .file "usr/lib/systemd/system/bcvk-copy-units.service" copyUnitsUnit,
   .file "usr/lib/systemd/system/bcvk-journal-stream.service"
     journalStreamUnit,
   .file "usr/lib/systemd/system/initrd-fs.target.d/bcvk-etc-overlay.conf"
     "[Unit]\nWants=bcvk-etc-overlay.service\n",
   .file "usr/lib/systemd/system/initrd-fs.target.d/bcvk-var-ephemeral.conf"
     "[Unit]\nWants=bcvk-var-ephemeral.service\n",
   .file "usr/lib/systemd/system/initrd-fs.target.d/bcvk-copy-units.conf"
     "[Unit]\nWants=bcvk-copy-units.service\n",
   .trailer]

/-! ## C6 — base-disk reference counting

From `src/crates/kit/src/libvirt/base_disks.rs`:
`count_base_disk_references` (lines 445-485),
`check_base_disk_referenced` (lines 488-536) and the VM-disk filter of
`list_base_disks` (lines 317-368).  Running `qemu-img info --force-share
--output=json` on a VM disk is modelled as an oracle returning the parsed
backing-file fields, or `none` when the subprocess fails (an unreadable
disk).
-/

/-- The backing-file fields of `qemu-img info --output=json`. -/
structure QemuImgInfo where
  backingFilename : Option String
  fullBackingFilename : Option String

/-- Model of `Utf8Path::file_name()`: the component after the last `/`,
`none` when it is empty. -/
def fileNameOf (p : String) : Option String :=
  match (splitSlash p.toList).getLast? with
  | none => none
  | some [] => none
  | some s => some ⟨s⟩

/-- Whether a `qemu-img` info record references the base-disk name in its
`backing-filename` or `full-backing-filename` field. -/
def referencesBase (info : QemuImgInfo) (baseName : String) : Bool :=
  (match info.backingFilename with
   | some bf => strContains bf baseName
   | none => false) ||
  (match info.fullBackingFilename with
   | some bf => strContains bf baseName
   | none => false)

/-- The loop body of `count_base_disk_references` (lines 449-482): an
unreadable disk (oracle `none`) is skipped; a readable disk counts once
when its `backing-filename`, or else its `full-backing-filename`, contains
the base disk's filename. -/
def countStep (qemuImgInfo : String → Option QemuImgInfo)
    (base_disk_name : String) (count : Nat) (vm_disk : String) : Nat :=
  match qemuImgInfo vm_disk with
  | none => count
  | some info =>
      match info.backingFilename with
      | some bf =>
          if strContains bf base_disk_name then count + 1
          else
            match info.fullBackingFilename with
            | some fbf =>
                if strContains fbf base_disk_name then count + 1 else count
            | none => count
      | none =>
          match info.fullBackingFilename with
          | some fbf =>
              if strContains fbf base_disk_name then count + 1 else count
          | none => count

/-- Embedding of `count_base_disk_references` from `base_disks.rs`
(lines 445-485): fold the loop body over the VM disks.
(`file_name().unwrap()` is modelled as `.getD ""`; the callers only pass
paths with a nonempty final component.) -/
def count_base_disk_references (qemuImgInfo : String → Option QemuImgInfo)
    (base_disk : String) (vm_disks : List String) : Nat :=
  let base_disk_name := (fileNameOf base_disk).getD ""
  vm_disks.foldl (countStep qemuImgInfo base_disk_name) 0

/-- Embedding of `check_base_disk_referenced` from `base_disks.rs`
(lines 488-536), used by prune: an unreadable disk conservatively counts
as referencing the base. -/
def check_base_disk_referenced (qemuImgInfo : String → Option QemuImgInfo)
    (base_disk : String) (vm_disks : List String) : Bool :=
  let base_disk_name := (fileNameOf base_disk).getD ""
  vm_disks.any fun vm_disk =>
    match qemuImgInfo vm_disk with
    | none => true
    | some info => referencesBase info base_disk_name

/-- The VM-disk filter of `list_base_disks` (lines 325-334): every volume
whose file name does not start with `bootc-base-`. -/
def vmDisksOf (volumes : List String) : List String :=
  volumes.filter fun p =>
    match fileNameOf p with
    | some name => !(strStartsWith name "bootc-base-")
    | none => false

/-- `BaseDiskInfo` from `base_disks.rs` (lines 371-377). -/
structure BaseDiskInfo where
  path : String
  image_digest : Option String
  size : Option Nat
  ref_count : Nat
deriving DecidableEq

/-- Embedding of `list_base_disks` from `base_disks.rs` (lines 317-368).
The pool directory listing (name and optional metadata size), the volume
list, the xattr image-digest reader and the `qemu-img` runner are passed
as inputs. -/
def list_base_disks (qemuImgInfo : String → Option QemuImgInfo)
    (pool_path : String) (pool_entries : List (String × Option Nat))
    (volumes : List String) (readImageDigest : String → Option String) :
    List BaseDiskInfo :=
  let vm_disks := vmDisksOf volumes
  pool_entries.filterMap fun e =>
    if strStartsWith e.1 "bootc-base-" && strEndsWith e.1 ".qcow2" then
      let path := pool_path ++ "/" ++ e.1
      some { path := path
             image_digest := readImageDigest path
             size := e.2
             ref_count := count_base_disk_references qemuImgInfo path
               vm_disks }
    else none

/-! ## C1/C2 — base-disk cache: creation and staleness

From `src/crates/kit/src/libvirt/base_disks.rs`:
`find_or_create_base_disk` (lines 15-71) and `create_base_disk`
(lines 74-180).  The storage-pool directory is modelled as an association
list from path to file; the to-disk install (`crate::to_disk::run`, whose
source file is not among the embedded sources) is an arbitrary state
transformer `producer`; xattr verification is either abstract (`checker`,
for `create_base_disk`) or the spec-modelled `check_cached_disk`; a rename
failure is modelled by the `renameOk` flag.
-/

/-- The xattr metadata record of a cached disk (spec §3: image digest,
install-options hash, kernel args). -/
structure MetaRecord where
  imageDigest : String
  installOptionsHash : String
  kernelArgs : List String
deriving DecidableEq

/-- A file in the modelled pool directory: opaque content plus the
optional xattr metadata record (xattrs survive rename). -/
structure DiskFile where
  content : String
  meta : Option MetaRecord
deriving DecidableEq

/-- The pool directory: an association list from path to file. -/
abbrev FS := List (String × DiskFile)

/-- Look up a path in the modelled directory. -/
def fsLookup : FS → String → Option DiskFile
  | [], _ => none
  | e :: t, p => if e.1 = p then some e.2 else fsLookup t p

/-- `Path::exists`. -/
def fsExists (fs : FS) (p : String) : Bool :=
  (fsLookup fs p).isSome

/-- `fs::remove_file` (removing a missing path is a no-op; the source's
cleanup helper checks existence first). -/
def fsRemove : FS → String → FS
  | [], _ => []
  | e :: t, p => if e.1 = p then fsRemove t p else e :: fsRemove t p

/-- Create or overwrite a file. -/
def fsInsert (fs : FS) (p : String) (f : DiskFile) : FS :=
  (p, f) :: fsRemove fs p

/-- `fs::rename`: move the file at `src` onto `dst` (xattrs travel with
the file). -/
def fsRename (fs : FS) (src dst : String) : FS :=
  match fsLookup fs src with
  | none => fs
  | some f => fsInsert (fsRemove fs src) dst f

/-- Split a path at its last `/`: directory part (with the trailing
slash) and file name. -/
def splitAtLastSlash (p : List Char) : List Char × List Char :=
  ((p.reverse.dropWhile (· ≠ '/')).reverse,
   (p.reverse.takeWhile (· ≠ '/')).reverse)

/-- Rust `Path::file_stem`: the file name up to its last `.` (a lone
leading dot does not begin an extension). -/
def fileStem (name : List Char) : List Char :=
  match name.reverse.dropWhile (· ≠ '.') with
  | [] => name
  | _ :: stemRev => if stemRev.isEmpty then name else stemRev.reverse

/-- Model of Rust `Path::with_extension(ext)`: replace the file name's
extension (or append one). -/
def withExtension (p : String) (ext : String) : String :=
  ⟨(splitAtLastSlash p.toList).1 ++ fileStem (splitAtLastSlash p.toList).2 ++
    '.' :: ext.toList⟩

/-- Modelled from the spec: `check_cached_disk` lives in
`crates/kit/src/cache_metadata.rs`, which is not among the embedded
sources.  Per spec §4.G, a cached disk is valid iff its xattrs decode to a
metadata record matching the requested (image digest, install-options
hash, kernel args) exactly; missing or mismatched xattrs are a miss. -/
def check_cached_disk (fs : FS) (p : String) (digest optsHash : String)
    (kargs : List String) : Bool :=
  match fsLookup fs p with
  | some f => f.meta == some ⟨digest, optsHash, kargs⟩
  | none => false

/-- Embedding of `create_base_disk` from `base_disks.rs` (lines 74-180):
install to `<target>.tmp` via the producer; on producer failure, clean the
temp file and fail; on success, verify the metadata record on the temp
file (abstract `checker`, instantiated with `check_cached_disk` by
`find_or_create_base_disk`); only when it verifies, rename temp onto the
target; on verification failure, verification error, or rename failure,
clean the temp file and fail. -/
def create_base_disk (producer : FS → FS × Bool)
    (checker : FS → String → Except Unit Bool) (renameOk : Bool)
    (fs : FS) (base_disk_path : String) : FS × Except Unit Unit :=
  let temp_disk_path := withExtension base_disk_path "qcow2.tmp"
  let pr := producer fs
  if !pr.2 then (fsRemove pr.1 temp_disk_path, .error ())
  else
    match checker pr.1 temp_disk_path with
    | .ok true =>
        if renameOk then
          (fsRename pr.1 temp_disk_path base_disk_path, .ok ())
        else (fsRemove pr.1 temp_disk_path, .error ())
    | .ok false => (fsRemove pr.1 temp_disk_path, .error ())
    | .error _ => (fsRemove pr.1 temp_disk_path, .error ())

/-- The short cache hash (lines 26-31): strip a `sha256:` prefix and take
the first 16 characters. -/
def shortHashOf (cache_hash : String) : String :=
  ⟨((stripPrefixStr cache_hash "sha256:").getD cache_hash).toList.take 16⟩

/-- The base-disk file name, `bootc-base-<short>.qcow2` (line 33). -/
def baseDiskNameOf (cache_hash : String) : String :=
  "bootc-base-" ++ shortHashOf cache_hash ++ ".qcow2"

/-- The base-disk path in the storage pool (line 37). -/
def baseDiskPathOf (pool_path cache_hash : String) : String :=
  pool_path ++ "/" ++ baseDiskNameOf cache_hash

/-- Embedding of `find_or_create_base_disk` from `base_disks.rs`
(lines 15-71).  `computeCacheHash` is modelled from the spec
(`DiskImageMetadata::compute_cache_hash` lives in the missing
`cache_metadata.rs`): a deterministic function of (image digest,
install-options hash, kernel args).  If the base disk exists with a
matching record it is a hit; if it exists with a mismatched record it is
removed and rebuilt; otherwise it is built. -/
def find_or_create_base_disk
    (computeCacheHash : String → String → List String → String)
    (producer : FS → FS × Bool) (renameOk : Bool) (fs : FS)
    (pool_path image_digest install_options_hash : String)
    (kernel_args : List String) : FS × Except Unit String :=
  let cache_hash := computeCacheHash image_digest install_options_hash
    kernel_args
  let base_disk_path := baseDiskPathOf pool_path cache_hash
  let checker : FS → String → Except Unit Bool := fun g p =>
    .ok (check_cached_disk g p image_digest install_options_hash kernel_args)
  if fsExists fs base_disk_path then
    if check_cached_disk fs base_disk_path image_digest
        install_options_hash kernel_args then
      (fs, .ok base_disk_path)
    else
      let fs1 := fsRemove fs base_disk_path
      match create_base_disk producer checker renameOk fs1 base_disk_path with
      | (fs2, .ok ()) => (fs2, .ok base_disk_path)
      | (fs2, .error e) => (fs2, .error e)
  else
    match create_base_disk producer checker renameOk fs base_disk_path with
    | (fs2, .ok ()) => (fs2, .ok base_disk_path)
    | (fs2, .error e) => (fs2, .error e)

/-! ## C10 — SMBIOS drop-in credentials for [Install] sections

From `src/crates/kit/src/credentials.rs`,
`smbios_creds_for_install_section` (lines 173-225).  Unit names and
contents are modelled as `List Char`; Rust's string helpers are given
structural models below; `data_encoding::BASE64` is modelled by an
executable standard base64 encoder over the UTF-8 bytes.
-/

/-- Model of Rust `str::split(sep)` for a single-char separator. -/
def splitOnChar (sep : Char) : List Char → List (List Char)
  | [] => [[]]
  | c :: t =>
      if c = sep then [] :: splitOnChar sep t
      else
        match splitOnChar sep t with
        | [] => [[c]]
        | h :: r => (c :: h) :: r

/-- The tail of Rust `str::lines`: every segment except the final one was
terminated by `\n`, so a trailing `\r` is stripped from it; a final empty
segment (from a trailing newline) is dropped. -/
def rustLinesAux : List (List Char) → List (List Char)
  | [] => []
  | [last] => if last = [] then [] else [last]
  | seg :: rest =>
      (if seg.getLast? = some '\r' then seg.dropLast else seg) ::
        rustLinesAux rest

/-- Model of Rust `str::lines`. -/
def rustLines (s : List Char) : List (List Char) :=
  rustLinesAux (splitOnChar '\n' s)

/-- Model of Rust `str::trim` (whitespace on both ends). -/
def trimChars (s : List Char) : List Char :=
  ((s.dropWhile Char.isWhitespace).reverse.dropWhile Char.isWhitespace).reverse

/-- ASCII lowercasing of one char. -/
def asciiLower (c : Char) : Char :=
  if 'A' ≤ c ∧ c ≤ 'Z' then Char.ofNat (c.toNat + 32) else c

/-- Model of Rust `str::eq_ignore_ascii_case`. -/
def eqIgnoreAsciiCase (a b : List Char) : Bool :=
  a.map asciiLower == b.map asciiLower

/-- Model of Rust `str::strip_prefix` on char lists. -/
def stripPrefixChars (s pre : List Char) : Option (List Char) :=
  if pre.isPrefixOf s then some (s.drop pre.length) else none

/-- The accumulator pass of Rust `str::split_whitespace`. -/
def splitWsAux : List Char → List Char → List (List Char)
  | [], acc => if acc = [] then [] else [acc.reverse]
  | c :: t, acc =>
      if c.isWhitespace then
        if acc = [] then splitWsAux t [] else acc.reverse :: splitWsAux t []
      else splitWsAux t (c :: acc)

/-- Model of Rust `str::split_whitespace`: maximal nonempty runs of
non-whitespace. -/
def splitWhitespace (s : List Char) : List (List Char) :=
  splitWsAux s []

/-- The standard base64 alphabet. -/
def b64Char (n : Nat) : Char :=
  ("ABCDEFGHIJKLMNOPQRSTUVWXYZabcdefghijklmnopqrstuvwxyz0123456789+/").toList.getD
    n 'A'

/-- Model of `data_encoding::BASE64` (standard alphabet, padded) over a
byte list. -/
def b64Encode : List Nat → List Char
  | a :: b :: c :: rest =>
      b64Char (a / 4) :: b64Char ((a % 4) * 16 + b / 16) ::
        b64Char ((b % 16) * 4 + c / 64) :: b64Char (c % 64) :: b64Encode rest
  | [a, b] =>
      [b64Char (a / 4), b64Char ((a % 4) * 16 + b / 16),
        b64Char ((b % 16) * 4), '=']
  | [a] => [b64Char (a / 4), b64Char ((a % 4) * 16), '=', '=']
  | [] => []

/-- UTF-8 encoding of one char. -/
def utf8Char (c : Char) : List Nat :=
  if c.toNat < 128 then [c.toNat]
  else if c.toNat < 2048 then
    [192 + c.toNat / 64, 128 + c.toNat % 64]
  else if c.toNat < 65536 then
    [224 + c.toNat / 4096, 128 + (c.toNat / 64) % 64, 128 + c.toNat % 64]
  else
    [240 + c.toNat / 262144, 128 + (c.toNat / 4096) % 64,
      128 + (c.toNat / 64) % 64, 128 + c.toNat % 64]

/-- UTF-8 bytes of a string. -/
def utf8Bytes (s : List Char) : List Nat :=
  s.flatMap utf8Char

/-- The line scan of `smbios_creds_for_install_section` (lines 179-198):
walk the lines tracking whether the current section is `[Install]`
(case-insensitively), collecting the whitespace-separated targets of
`WantedBy=` and `RequiredBy=` directives in order. -/
def collectInstallTargets (lines : List (List Char)) (inInstall : Bool) :
    List (List Char) × List (List Char) :=
  match lines with
  | [] => ([], [])
  | line :: rest =>
      let t := trimChars line
      if "[".toList.isPrefixOf t then
        collectInstallTargets rest (eqIgnoreAsciiCase t "[Install]".toList)
      else if !inInstall then collectInstallTargets rest inInstall
      else
        match stripPrefixChars t "WantedBy=".toList with
        | some targets =>
            let wr := collectInstallTargets rest inInstall
            (splitWhitespace targets ++ wr.1, wr.2)
        | none =>
            match stripPrefixChars t "RequiredBy=".toList with
            | some targets =>
                let wr := collectInstallTargets rest inInstall
                (wr.1, splitWhitespace targets ++ wr.2)
            | none => collectInstallTargets rest inInstall

/-- One SMBIOS unit-dropin credential string (lines 201-209, 213-221):
`io.systemd.credential.binary:systemd.unit-dropin.<target>~bcvk-<name with
dots dashed>=<base64 payload>`, with payload `[Unit]\n<directive>=<unit
name>\n`. -/
def dropinCred (target unit_name directive : List Char) : List Char :=
  "io.systemd.credential.binary:systemd.unit-dropin.".toList ++ target ++
    "~".toList ++
    ("bcvk-".toList ++ unit_name.map fun c => if c = '.' then '-' else c) ++
    "=".toList ++
    b64Encode (utf8Bytes ("[Unit]\n".toList ++ directive ++ "=".toList ++
      unit_name ++ "\n".toList))

/-- Embedding of `smbios_creds_for_install_section` from `credentials.rs`
(lines 173-225): collect the `[Install]` section's `WantedBy=` and
`RequiredBy=` targets, then emit one `Wants=` drop-in credential per
WantedBy target followed by one `Requires=` drop-in credential per
RequiredBy target. -/
def smbios_creds_for_install_section (unit_name unit_content : List Char) :
    List (List Char) :=
  let wr := collectInstallTargets (rustLines unit_content) false
  wr.1.map (fun target => dropinCred target unit_name "Wants".toList) ++
    wr.2.map (fun target => dropinCred target unit_name "Requires".toList)

/-- Spec side: annotate each non-header line with the (ASCII-lowercased)
header of the section it belongs to. -/
def annotateSections (cur : Option (List Char)) :
    List (List Char) → List (Option (List Char) × List Char)
  | [] => []
  | l :: rest =>
      let t := trimChars l
      if "[".toList.isPrefixOf t then
        annotateSections (some (t.map asciiLower)) rest
      else (cur, t) :: annotateSections cur rest

/-- Spec side: the targets named in the lines of the `[Install]` section
that carry the given directive prefix (e.g. `WantedBy=`); directives
outside `[Install]` are ignored. -/
def installSectionTargets (directivePrefix : List Char)
    (content : List Char) : List (List Char) :=
  (annotateSections none (rustLines content)).flatMap fun st =>
    if st.1 = some ("[install]".toList) then
      match stripPrefixChars st.2 directivePrefix with
      | some targets => splitWhitespace targets
      | none => []
    else []

/-- The value of a base64 alphabet character (inverse of `b64Char`). -/
def b64Val (c : Char) : Nat :=
  if 'A' ≤ c ∧ c ≤ 'Z' then c.toNat - 65
  else if 'a' ≤ c ∧ c ≤ 'z' then c.toNat - 97 + 26
  else if '0' ≤ c ∧ c ≤ '9' then c.toNat - 48 + 52
  else if c = '+' then 62
  else 63

/-- Standard base64 decoding (padding only at the end, as produced by
`b64Encode`). -/
def b64Decode : List Char → List Nat
  | c1 :: c2 :: c3 :: c4 :: rest =>
      if c3 = '=' then [b64Val c1 * 4 + b64Val c2 / 16]
      else if c4 = '=' then
        [b64Val c1 * 4 + b64Val c2 / 16,
         b64Val c2 % 16 * 16 + b64Val c3 / 4]
      else
        (b64Val c1 * 4 + b64Val c2 / 16) ::
          (b64Val c2 % 16 * 16 + b64Val c3 / 4) ::
          (b64Val c3 % 4 * 64 + b64Val c4) :: b64Decode rest
  | _ => []

/-! ## THEOREMS -/

/-! ## Theorems for C5 and C7 -/

/-- C5: the ephemeral run operation treats QEMU exit code 0 as success; it
treats exit code 1 as success if and only if the user-supplied kernel
arguments contain `poweroff.target`; every other non-zero exit code, and
termination by a signal, propagates as an error. -/
theorem c5_run_exit_code_policy (status : ExitStatus) (args : List String) :
    runExitResult status args = .ok () ↔
      (status = .exited 0 ∨
       (status = .exited 1 ∧
        strContains (joinWith " " args) "poweroff.target" = true)) := by
  constructor
  · intro h
    cases status with
    | exited code =>
        by_cases h0 : code = 0
        · exact Or.inl (by simp [h0])
        · right
          simp only [runExitResult, ExitStatus.success] at h
          split at h
          · rename_i hs
            split at hs <;> simp_all
          · split at h
            · rename_i hc
              exact ⟨by simp [hc.1], hc.2⟩
            · simp at h
    | signaled => simp [runExitResult, ExitStatus.success] at h
  · rintro (h | ⟨h1, h2⟩)
    · simp [h, runExitResult, ExitStatus.success]
    · subst h1
      simp [runExitResult, ExitStatus.success, h2]


/-- C7 (code bug): evaluating `generate_mount_unit` at the failing input
(tag `rootfs`, guest path `/mnt/data`, readonly true).  The generated unit
does contain `What=rootfs`, `Where=/mnt/data`, `Type=virtiofs`, `Options=ro`,
`DefaultDependencies=no` and `Before=local-fs.target umount.target`, but it
does NOT contain the `TimeoutSec=10` line, although the function's own doc
comment and the spec both state that `TimeoutSec=10` is included. -/
theorem c7_mount_unit_missing_timeout :
    strContains (generate_mount_unit "rootfs" "/mnt/data" true)
      "TimeoutSec=10" = false ∧
    strContains (generate_mount_unit "rootfs" "/mnt/data" true)
      "What=rootfs" = true ∧
    strContains (generate_mount_unit "rootfs" "/mnt/data" true)
      "Where=/mnt/data" = true ∧
    strContains (generate_mount_unit "rootfs" "/mnt/data" true)
      "Type=virtiofs" = true ∧
    strContains (generate_mount_unit "rootfs" "/mnt/data" true)
      "Options=ro" = true ∧
    strContains (generate_mount_unit "rootfs" "/mnt/data" true)
      "DefaultDependencies=no" = true ∧
    strContains (generate_mount_unit "rootfs" "/mnt/data" true)
      "Before=local-fs.target umount.target" = true := by
  set_option maxRecDepth 20000 in decide

theorem splitSlash_ne_nil (q : List Char) : splitSlash q ≠ [] := by
  cases q with
  | nil => simp [splitSlash]
  | cons c t =>
      simp only [splitSlash]
      split
      · simp
      · split <;> simp

theorem joinDash_cons_append (a x : List Char) (l : List (List Char)) :
    joinDash ((a ++ x) :: l) = a ++ joinDash (x :: l) := by
  cases l <;> simp [joinDash, List.append_assoc]

theorem joinDash_nil_cons (x : List Char) (l : List (List Char)) :
    joinDash ([] :: x :: l) = '-' :: joinDash (x :: l) := by
  simp [joinDash]

/-- Splitting at `/`, escaping each component and rejoining with `-` is the
character-wise substitution `escChar`. -/
theorem joinDash_splitSlash_eq_flatMap (q : List Char) :
    joinDash ((splitSlash q).map escComponent) = q.flatMap escChar := by
  induction q with
  | nil => rfl
  | cons c t ih =>
      obtain ⟨h, r, hr⟩ := List.exists_cons_of_ne_nil (splitSlash_ne_nil t)
      rw [hr] at ih
      by_cases hc : c = '/'
      · subst hc
        have h1 : splitSlash ('/' :: t) = [] :: h :: r := by
          simp [splitSlash, hr]
        rw [h1, List.map_cons, List.map_cons,
          show escComponent ([] : List Char) = [] from rfl,
          joinDash_nil_cons, ← List.map_cons escComponent h r, ih]
        simp [List.flatMap_cons, escChar]
      · have h1 : splitSlash (c :: t) = (c :: h) :: r := by
          simp [splitSlash, hc, hr]
        have hesc : escComponent (c :: h) =
            (if c = '-' then ['\\', 'x', '2', 'd'] else [c]) ++ escComponent h := by
          simp [escComponent]
        rw [h1, List.map_cons, hesc, joinDash_cons_append,
          ← List.map_cons escComponent h r, ih]
        simp [List.flatMap_cons, escChar, hc]

theorem unrepl_block (r : List Char) :
    unrepl ('\\' :: 'x' :: '2' :: 'd' :: r) = '-' :: unrepl r := rfl

theorem unrepl_cons_of_ne (c : Char) (t : List Char) (hc : c ≠ '\\') :
    unrepl (c :: t) = c :: unrepl t := by
  rw [unrepl.eq_def]
  split
  · rename_i heq
    injection heq with h1 h2
    exact absurd h1 hc
  · rename_i heq
    injection heq with h1 h2
    subst h1
    subst h2
    rfl
  · rename_i heq
    exact absurd heq (List.cons_ne_nil _ _)

/-- Applying the dash-to-slash map to the escaped string and then undoing the
`\x2d` escape recovers the original path, provided it has no backslash. -/
theorem unrepl_map_flatMap (q : List Char) (hbs : '\\' ∉ q) :
    unrepl ((q.flatMap escChar).map fun c => if c = '-' then '/' else c) = q := by
  induction q with
  | nil => rfl
  | cons c t ih =>
      have hct : '\\' ∉ t := fun h => hbs (List.mem_cons_of_mem _ h)
      have hcc : c ≠ '\\' := fun h => hbs (h ▸ List.mem_cons_self c t)
      simp only [List.flatMap_cons, List.map_append]
      by_cases h1 : c = '/'
      · subst h1
        rw [show (escChar '/').map (fun c => if c = '-' then '/' else c) =
              ['/'] from by decide]
        rw [List.singleton_append, unrepl_cons_of_ne _ _ (by decide), ih hct]
      · by_cases h2 : c = '-'
        · subst h2
          rw [show (escChar '-').map (fun c => if c = '-' then '/' else c) =
                ['\\', 'x', '2', 'd'] from by decide]
          rw [show (['\\', 'x', '2', 'd'] : List Char) ++
                ((t.flatMap escChar).map fun c => if c = '-' then '/' else c) =
                '\\' :: 'x' :: '2' :: 'd' ::
                ((t.flatMap escChar).map fun c => if c = '-' then '/' else c) from
            rfl]
          rw [unrepl_block, ih hct]
        · rw [show (escChar c).map (fun c => if c = '-' then '/' else c) =
                [c] from by simp [escChar, h1, h2]]
          rw [List.singleton_append, unrepl_cons_of_ne _ _ hcc, ih hct]


/-- C9 (counterexample): the conversion from guest path to unit name is NOT
invertible on all absolute newline-free paths: the distinct paths `/a-b` and
`/a\x2db` (the latter containing a literal backslash) map to the same unit
name `a\x2db.mount`, so no unescaping function can recover the original path
for all such paths. -/
theorem c9_escape_not_invertible :
    ¬ ∃ g : List Char → List Char,
        ∀ p : List Char, p.head? = some '/' → '\n' ∉ p →
          g (guest_path_to_unit_name p) = p := by
  rintro ⟨g, hg⟩
  have h1 := hg "/a-b".toList (by decide) (by decide)
  have h2 := hg "/a\\x2db".toList (by decide) (by decide)
  have heq : guest_path_to_unit_name "/a-b".toList =
      guest_path_to_unit_name "/a\\x2db".toList := by decide
  rw [heq] at h1
  exact absurd (h1.symm.trans h2) (by decide)

/-- C9 (amended): for every absolute guest path containing no newline and no
backslash characters, composing `guest_path_to_unit_name` with the
corresponding unescaping yields the original path. -/
theorem c9_guest_path_unit_name_roundtrip (p : List Char)
    (habs : p.head? = some '/') (hnl : '\n' ∉ p) (hbs : '\\' ∉ p) :
    unescape_unit_name (guest_path_to_unit_name p) = p := by
  obtain ⟨q, rfl⟩ : ∃ q, p = '/' :: q := by
    cases p with
    | nil => simp at habs
    | cons c t =>
        simp only [List.head?_cons, Option.some.injEq] at habs
        exact ⟨t, by rw [habs]⟩
  have hbq : '\\' ∉ q := fun h => hbs (List.mem_cons_of_mem _ h)
  simp only [guest_path_to_unit_name, unescape_unit_name]
  rw [show stripLeadingSlash ('/' :: q) = q from rfl,
    joinDash_splitSlash_eq_flatMap]
  have h6 : (".mount".toList).length = 6 := rfl
  have hlen : (q.flatMap escChar ++ ".mount".toList).length - 6 =
      (q.flatMap escChar).length := by
    rw [List.length_append, h6]
    omega
  rw [hlen, List.take_left, unrepl_map_flatMap q hbq]

/-- C9 witness: the round trip evaluated at the concrete absolute path
`/mnt/test-rw` (the example given in the source's doc comment). -/
theorem c9_guest_path_unit_name_roundtrip_witness :
    ("/mnt/test-rw".toList.head? = some '/') ∧
      unescape_unit_name (guest_path_to_unit_name "/mnt/test-rw".toList) =
        "/mnt/test-rw".toList :=
  ⟨by decide, c9_guest_path_unit_name_roundtrip _ (by decide) (by decide)
    (by decide)⟩



/-! ### Lemmas and theorems for C3/C4 (kernel discovery) -/

theorem strToList_append (a b : String) :
    (a ++ b).toList = a.toList ++ b.toList := by
  simp [String.toList]

theorem infix_joinWith (sep : String) (p : String) (l : List String)
    (hp : p ∈ l) : p.toList <:+: (joinWith sep l).toList := by
  induction l with
  | nil => cases hp
  | cons x rest ih =>
      cases rest with
      | nil =>
          rw [List.mem_singleton] at hp
          subst hp
          exact List.infix_refl _
      | cons y r =>
          rw [show joinWith sep (x :: y :: r) =
            x ++ sep ++ joinWith sep (y :: r) from rfl,
            strToList_append, strToList_append]
          rcases List.mem_cons.mp hp with h | h
          · subst h
            rw [List.append_assoc]
            exact (List.prefix_append _ _).isInfix
          · exact (ih h).trans (List.suffix_append _ _).isInfix

theorem strContains_multipleMsg (n : Nat) (kind : String)
    (paths : List String) (p : String) (hp : p ∈ paths) :
    strContains (multipleMsg n kind paths) p = true := by
  rw [strContains, listIsInfix, decide_eq_true_eq, multipleMsg,
    strToList_append]
  exact (infix_joinWith _ _ _ hp).trans (List.suffix_append _ _).isInfix

theorem find_ukis_in_esp_shape (root : List (String × FsNode))
    (l : List KernelInfo) (h : find_ukis_in_esp root = .ok l) :
    ∀ k ∈ l, k.is_uki = true ∧ k.initramfs_path = none := by
  unfold find_ukis_in_esp at h
  split at h
  · exact Except.noConfusion h
  · injection h with h
    subst h
    intro k hk
    cases hk
  · split at h
    · exact Except.noConfusion h
    · injection h with h
      subst h
      intro k hk
      cases hk
    · injection h with h
      subst h
      intro k hk
      rw [List.mem_filterMap] at hk
      obtain ⟨e, _, hke⟩ := hk
      by_cases hu : is_uki_file e.1
      · rw [if_pos hu] at hke
        injection hke with hke
        subst hke
        exact ⟨rfl, rfl⟩
      · rw [if_neg hu] at hke
        cases hke

theorem find_ukis_in_modules_shape (root : List (String × FsNode))
    (l : List KernelInfo) (h : find_ukis_in_modules root = .ok l) :
    ∀ k ∈ l, k.is_uki = true ∧ k.initramfs_path = none := by
  unfold find_ukis_in_modules at h
  split at h
  · exact Except.noConfusion h
  · injection h with h
    subst h
    intro k hk
    cases hk
  · injection h with h
    subst h
    intro k hk
    rw [List.mem_flatMap] at hk
    obtain ⟨e, _, hke⟩ := hk
    match e with
    | (v, FsNode.file) => cases hke
    | (v, FsNode.dir vd) =>
        rw [List.mem_map] at hke
        obtain ⟨n, _, hn⟩ := hke
        subst hn
        exact ⟨rfl, rfl⟩

theorem containsUKI_ukis_ne_nil (root : List (String × FsNode))
    (es ms : List KernelInfo)
    (hu : containsUKIFile root = true)
    (hesp : find_ukis_in_esp root = .ok es)
    (hmod : find_ukis_in_modules root = .ok ms) : es ++ ms ≠ [] := by
  unfold containsUKIFile at hu
  rw [Bool.or_eq_true] at hu
  rcases hu with hu | hu
  · -- a `.efi` file in `boot/EFI/Linux` forces `es` to be nonempty
    have hes : es ≠ [] := by
      unfold find_ukis_in_esp at hesp
      cases hwb : walkPath root ["boot"] with
      | error e => rw [hwb] at hu; simp at hu
      | ok ob =>
          cases ob with
          | none => rw [hwb] at hu; simp at hu
          | some boot =>
              rw [hwb] at hu hesp
              simp only [] at hu hesp
              cases hwe : walkPath boot ["EFI", "Linux"] with
              | error e => rw [hwe] at hu; simp at hu
              | ok oe =>
                  cases oe with
                  | none => rw [hwe] at hu; simp at hu
                  | some efiLinux =>
                      rw [hwe] at hu hesp
                      simp only [] at hu hesp
                      simp only [List.any_eq_true, Bool.and_eq_true] at hu
                      obtain ⟨e, he, hprop, -⟩ := hu
                      injection hesp with hesp
                      subst hesp
                      apply List.ne_nil_of_mem
                        (a := (⟨"boot/EFI/Linux/" ++ e.1, none, true⟩ :
                          KernelInfo))
                      rw [List.mem_filterMap]
                      exact ⟨e, he, by rw [if_pos hprop]⟩
    intro hcontra
    rw [List.append_eq_nil] at hcontra
    exact hes hcontra.1
  · -- a `.efi` file in a modules version dir forces `ms` to be nonempty
    have hms : ms ≠ [] := by
      unfold find_ukis_in_modules at hmod
      cases hwm : open_modules_dir root with
      | error e => rw [hwm] at hu; simp at hu
      | ok om =>
          cases om with
          | none => rw [hwm] at hu; simp at hu
          | some modules =>
              rw [hwm] at hu hmod
              simp only [List.any_eq_true] at hu
              obtain ⟨e, he, hprop⟩ := hu
              simp only [] at hmod
              injection hmod with hmod
              subst hmod
              match e, he, hprop with
              | (v, FsNode.dir vd), he, hprop =>
                  simp only [List.any_eq_true, Bool.and_eq_true] at hprop
                  obtain ⟨x, hx, hxp⟩ := hprop
                  apply List.ne_nil_of_mem
                    (a := (⟨"usr/lib/modules/" ++ v ++ "/" ++ x.1, none,
                      true⟩ : KernelInfo))
                  rw [List.mem_flatMap]
                  refine ⟨(v, FsNode.dir vd), he, ?_⟩
                  rw [List.mem_map]
                  refine ⟨x.1, ?_, rfl⟩
                  rw [find_ukis_in_version_dir, List.mem_filterMap]
                  exact ⟨x, hx, by
                    rw [if_pos (by rw [Bool.and_eq_true]; exact hxp)]⟩
    intro hcontra
    rw [List.append_eq_nil] at hcontra
    exact hms hcontra.2

/-- C3: for every image root containing at least one UKI (a `.efi` file
under `boot/EFI/Linux/` or under a `usr/lib/modules/<version>/` directory),
`find_kernel` never returns a traditional kernel: any Kernel Info it
returns is a UKI, and its `initramfs_path` is absent. -/
theorem c3_uki_precedence (root : List (String × FsNode))
    (hu : containsUKIFile root = true) (k : KernelInfo)
    (hk : find_kernel root = .ok (some k)) :
    k.is_uki = true ∧ k.initramfs_path = none := by
  unfold find_kernel at hk
  cases hesp : find_ukis_in_esp root with
  | error e => rw [hesp] at hk; exact Except.noConfusion hk
  | ok es =>
      rw [hesp] at hk
      cases hmod : find_ukis_in_modules root with
      | error e => rw [hmod] at hk; exact Except.noConfusion hk
      | ok ms =>
          rw [hmod] at hk
          have hne := containsUKI_ukis_ne_nil root es ms hu hesp hmod
          simp only [] at hk
          rw [if_neg (by rw [List.isEmpty_iff]; exact hne)] at hk
          cases hX : es ++ ms with
          | nil => exact absurd hX hne
          | cons u rest =>
              rw [hX] at hk
              cases rest with
              | nil =>
                  injection hk with hk
                  injection hk with hk
                  have hmem : u ∈ es ++ ms := by
                    rw [hX]; exact List.mem_singleton.mpr rfl
                  rw [← hk]
                  rcases List.mem_append.mp hmem with h | h
                  · exact find_ukis_in_esp_shape root es hesp u h
                  · exact find_ukis_in_modules_shape root ms hmod u h
              | cons v r => exact Except.noConfusion hk

/-- C3 witness: a concrete image root holding one UKI in the ESP together
with a traditional kernel; the locator returns the UKI, which has no
initramfs. -/
theorem c3_uki_precedence_witness :
    containsUKIFile c3WitnessRoot = true ∧
      ((⟨"boot/EFI/Linux/fedora.efi", none, true⟩ : KernelInfo).is_uki = true ∧
       (⟨"boot/EFI/Linux/fedora.efi", none, true⟩ :
          KernelInfo).initramfs_path = none) :=
  ⟨by decide,
   c3_uki_precedence c3WitnessRoot (by decide)
     ⟨"boot/EFI/Linux/fedora.efi", none, true⟩ (by rfl)⟩

/-- C4 (counterexample): on an image root with zero UKIs and zero
traditional kernels (here: the empty root), `find_kernel` does NOT fail
with a `NoKernel` error — it succeeds with `none`, contradicting the claim
that the locator returns exactly one Kernel Info or fails. -/
theorem c4_no_kernel_returns_ok_none :
    find_kernel ([] : List (String × FsNode)) = .ok none := rfl

/-- C4 (amended): `find_kernel` returns exactly one Kernel Info, or
succeeds with `none` when there are zero UKIs and zero traditional kernels,
or fails with an error listing every found path when it finds more than one
UKI, or zero UKIs and more than one traditional kernel. -/
theorem c4_find_kernel_trichotomy (root : List (String × FsNode))
    (es ms ts : List KernelInfo)
    (hesp : find_ukis_in_esp root = .ok es)
    (hmod : find_ukis_in_modules root = .ok ms)
    (htrad : find_traditional_kernels_in_modules root = .ok ts) :
    (es ++ ms = [] ∧ ts = [] ∧ find_kernel root = .ok none) ∨
    (∃ k, find_kernel root = .ok (some k) ∧
      (es ++ ms = [k] ∨ (es ++ ms = [] ∧ ts = [k]))) ∨
    ((es ++ ms).length > 1 ∧ ∃ msg, find_kernel root = .error msg ∧
      ∀ k ∈ es ++ ms, strContains msg k.kernel_path = true) ∨
    (es ++ ms = [] ∧ ts.length > 1 ∧ ∃ msg, find_kernel root = .error msg ∧
      ∀ k ∈ ts, strContains msg k.kernel_path = true) := by
  rcases hX : es ++ ms with _ | ⟨u, _ | ⟨v, r⟩⟩
  · rcases hT : ts with _ | ⟨k, _ | ⟨w, q⟩⟩
    · have hfk : find_kernel root = .ok none := by
        unfold find_kernel
        rw [hesp, hmod]
        simp only [hX, htrad, hT, List.isEmpty_nil, if_true]
      exact Or.inl ⟨rfl, rfl, hfk⟩
    · have hfk : find_kernel root = .ok (some k) := by
        unfold find_kernel
        rw [hesp, hmod]
        simp only [hX, htrad, hT, List.isEmpty_nil, if_true]
      exact Or.inr (Or.inl ⟨k, hfk, Or.inr ⟨rfl, rfl⟩⟩)
    · have hfk : find_kernel root = .error (multipleMsg (k :: w :: q).length
          "traditional kernels" ((k :: w :: q).map (·.kernel_path))) := by
        unfold find_kernel
        rw [hesp, hmod]
        simp only [hX, htrad, hT, List.isEmpty_nil, if_true]
      refine Or.inr (Or.inr (Or.inr ⟨rfl, by simp, _, hfk, ?_⟩))
      intro x hx
      exact strContains_multipleMsg _ _ _ _
        (List.mem_map_of_mem (·.kernel_path) hx)
  · have hfk : find_kernel root = .ok (some u) := by
      unfold find_kernel
      rw [hesp, hmod]
      simp only [hX, List.isEmpty_cons, Bool.false_eq_true, if_false]
    exact Or.inr (Or.inl ⟨u, hfk, Or.inl rfl⟩)
  · have hfk : find_kernel root = .error (multipleMsg (u :: v :: r).length
        "UKIs" ((u :: v :: r).map (·.kernel_path))) := by
      unfold find_kernel
      rw [hesp, hmod]
      simp only [hX, List.isEmpty_cons, Bool.false_eq_true, if_false]
    refine Or.inr (Or.inr (Or.inl ⟨by simp, _, hfk, ?_⟩))
    intro x hx
    exact strContains_multipleMsg _ _ _ _
      (List.mem_map_of_mem (·.kernel_path) hx)

/-- C4 witness: a concrete image root with two UKIs in the ESP, on which
the amended trichotomy yields the failing branch. -/
theorem c4_find_kernel_trichotomy_witness :
    ∃ msg, find_kernel c4WitnessRoot = .error msg := by
  have h := c4_find_kernel_trichotomy c4WitnessRoot
    [⟨"boot/EFI/Linux/aaa.efi", none, true⟩,
     ⟨"boot/EFI/Linux/bbb.efi", none, true⟩] [] [] rfl rfl rfl
  rcases h with ⟨h1, -, -⟩ | ⟨k, -, hk | ⟨h1, -⟩⟩ | ⟨-, msg, hmsg, -⟩ |
    ⟨h1, -, -⟩
  · exact absurd h1 (by simp)
  · exact absurd hk (by simp)
  · exact absurd h1 (by simp)
  · exact ⟨msg, hmsg⟩
  · exact absurd h1 (by simp)


/-! ### Lemmas and theorems for C6 and C8 -/

theorem countStep_eq (oracle : String → Option QemuImgInfo)
    (name : String) (n : Nat) (vm : String) :
    countStep oracle name n vm =
      n + (if (match oracle vm with
               | some info => referencesBase info name
               | none => false) then 1 else 0) := by
  unfold countStep
  cases ho : oracle vm with
  | none => simp
  | some info =>
      cases hb : info.backingFilename with
      | some bf =>
          by_cases hc : strContains bf name
          · simp [referencesBase, hb, hc]
          · cases hf2 : info.fullBackingFilename with
            | some fbf =>
                by_cases hc2 : strContains fbf name <;>
                  simp [referencesBase, hb, hc, hf2, hc2]
            | none => simp [referencesBase, hb, hc, hf2]
      | none =>
          cases hf2 : info.fullBackingFilename with
          | some fbf =>
              by_cases hc2 : strContains fbf name <;>
                simp [referencesBase, hb, hf2, hc2]
          | none => simp [referencesBase, hb, hf2]

theorem foldl_countStep_eq_countP (oracle : String → Option QemuImgInfo)
    (name : String) (l : List String) :
    ∀ n : Nat, l.foldl (countStep oracle name) n =
      n + l.countP (fun vm =>
        match oracle vm with
        | some info => referencesBase info name
        | none => false) := by
  induction l with
  | nil => intro n; simp
  | cons a t ih =>
      intro n
      rw [List.foldl_cons, countStep_eq, ih, List.countP_cons]
      by_cases hp : (match oracle a with
        | some info => referencesBase info name
        | none => false) = true
      · simp [hp]; omega
      · simp [hp]

/-- The refcount computed by `count_base_disk_references` is the number of
VM disks whose info is readable and whose backing-file (or full
backing-file) field contains the base disk's filename. -/
theorem count_base_disk_references_eq_countP
    (oracle : String → Option QemuImgInfo) (base : String)
    (vms : List String) :
    count_base_disk_references oracle base vms =
      vms.countP (fun vm =>
        match oracle vm with
        | some info => referencesBase info ((fileNameOf base).getD "")
        | none => false) := by
  unfold count_base_disk_references
  rw [foldl_countStep_eq_countP]
  simp

/-- C6 (counterexample): with a single VM disk whose `qemu-img info` fails
(oracle `none`), `count_base_disk_references` yields 0 — the unreadable
disk is skipped, NOT conservatively counted as referencing the base (which
would give 1).  Only prune's `check_base_disk_referenced` is conservative,
returning true on the same input. -/
theorem c6_unreadable_disk_skipped_in_count :
    count_base_disk_references (fun _ => none)
        "/pool/bootc-base-abcd.qcow2" ["/pool/vm1.qcow2"] = 0 ∧
      check_base_disk_referenced (fun _ => none)
        "/pool/bootc-base-abcd.qcow2" ["/pool/vm1.qcow2"] = true := by
  constructor <;> rfl

/-- C6 (amended): for every base disk reported by the list operation, the
refcount equals the number of VM disks (volumes whose file name does not
start with `bootc-base-`) whose `qemu-img info --force-share` output is
readable and whose qcow2 backing-file field contains the base disk's
filename; a VM disk whose info cannot be read is skipped by the refcount
(only prune's referenced-check treats it conservatively). -/
theorem c6_list_refcount (oracle : String → Option QemuImgInfo)
    (pool_path : String) (pool_entries : List (String × Option Nat))
    (volumes : List String) (readImageDigest : String → Option String)
    (b : BaseDiskInfo)
    (hb : b ∈ list_base_disks oracle pool_path pool_entries volumes
      readImageDigest) :
    b.ref_count = (vmDisksOf volumes).countP (fun vm =>
      match oracle vm with
      | some info => referencesBase info ((fileNameOf b.path).getD "")
      | none => false) := by
  unfold list_base_disks at hb
  rw [List.mem_filterMap] at hb
  obtain ⟨e, _, he⟩ := hb
  by_cases hcond : (strStartsWith e.1 "bootc-base-" &&
      strEndsWith e.1 ".qcow2") = true
  · rw [if_pos hcond] at he
    injection he with he
    subst he
    exact count_base_disk_references_eq_countP _ _ _
  · rw [if_neg hcond] at he
    cases he

/-- C6 witness: the amended claim evaluated on a concrete pool with one
base disk and two VM disks: one references the base, one is unreadable and
is skipped, so the reported refcount is 1. -/
theorem c6_list_refcount_witness :
    ∃ b ∈ list_base_disks
        (fun vm => if vm = "/pool/vm1.qcow2" then
            some ⟨some "bootc-base-abcd.qcow2", none⟩
          else none)
        "/pool" [("bootc-base-abcd.qcow2", some 1000)]
        ["/pool/vm1.qcow2", "/pool/vm2.qcow2"] (fun _ => none),
      b.ref_count = 1 := by
  have hb : ({ path := "/pool/bootc-base-abcd.qcow2", image_digest := none,
               size := some 1000, ref_count := 1 } : BaseDiskInfo) ∈
      list_base_disks
        (fun vm => if vm = "/pool/vm1.qcow2" then
            some ⟨some "bootc-base-abcd.qcow2", none⟩
          else none)
        "/pool" [("bootc-base-abcd.qcow2", some 1000)]
        ["/pool/vm1.qcow2", "/pool/vm2.qcow2"] (fun _ => none) := by
    decide
  refine ⟨_, hb, ?_⟩
  have heq := c6_list_refcount _ _ _ _ _ _ hb
  exact heq.trans (by decide)

/-- C8 (counterexample): the CPIO archive contains NO `initrd-fs.target.d`
drop-in naming `bcvk-journal-stream.service`: only three of the four units
receive a drop-in, refuting "for each of the four units".  (Shown at empty
unit-file contents; the drop-in entries do not depend on them.) -/
theorem c8_no_journal_stream_dropin :
    ((create_initramfs_units_cpio "" "" "" "").filter fun e =>
        match e with
        | .file p c =>
            strStartsWith p "usr/lib/systemd/system/initrd-fs.target.d/" &&
              strContains c "bcvk-journal-stream"
        | _ => false) = [] := by
  decide

/-- C8 (amended): for all unit-file contents, the archive contains the four
service units under `usr/lib/systemd/system/` and, for three of the four
(`bcvk-etc-overlay`, `bcvk-var-ephemeral`, `bcvk-copy-units`, but not
`bcvk-journal-stream`), an `initrd-fs.target.d` drop-in whose `[Unit]`
section declares `Wants=` that unit. -/
theorem c8_cpio_units_and_dropins (a b c d : String) :
    CpioEntry.file "usr/lib/systemd/system/bcvk-etc-overlay.service" a ∈
      create_initramfs_units_cpio a b c d ∧
    CpioEntry.file "usr/lib/systemd/system/bcvk-var-ephemeral.service" b ∈
      create_initramfs_units_cpio a b c d ∧
    CpioEntry.file "usr/lib/systemd/system/bcvk-copy-units.service" c ∈
      create_initramfs_units_cpio a b c d ∧
    CpioEntry.file "usr/lib/systemd/system/bcvk-journal-stream.service" d ∈
      create_initramfs_units_cpio a b c d ∧
    CpioEntry.file
        "usr/lib/systemd/system/initrd-fs.target.d/bcvk-etc-overlay.conf"
        "[Unit]\nWants=bcvk-etc-overlay.service\n" ∈
      create_initramfs_units_cpio a b c d ∧
    CpioEntry.file
        "usr/lib/systemd/system/initrd-fs.target.d/bcvk-var-ephemeral.conf"
        "[Unit]\nWants=bcvk-var-ephemeral.service\n" ∈
      create_initramfs_units_cpio a b c d ∧
    CpioEntry.file
        "usr/lib/systemd/system/initrd-fs.target.d/bcvk-copy-units.conf"
        "[Unit]\nWants=bcvk-copy-units.service\n" ∈
      create_initramfs_units_cpio a b c d := by
  refine ⟨?_, ?_, ?_, ?_, ?_, ?_, ?_⟩ <;>
    simp [create_initramfs_units_cpio]


/-! ### Lemmas and theorems for C1/C2 (base-disk cache) -/

theorem fsLookup_fsRemove (fs : FS) (p q : String) :
    fsLookup (fsRemove fs p) q = if q = p then none else fsLookup fs q := by
  induction fs with
  | nil => simp [fsLookup, fsRemove]
  | cons e t ih =>
      simp only [fsRemove]
      by_cases hep : e.1 = p
      · rw [if_pos hep, ih]
        by_cases hqp : q = p
        · simp [hqp]
        · have hne : ¬ e.1 = q := fun h => hqp (h ▸ hep)
          rw [if_neg hqp, if_neg hqp]
          simp [fsLookup, hne]
      · rw [if_neg hep]
        simp only [fsLookup]
        by_cases heq : e.1 = q
        · have hqp : ¬ q = p := fun h => hep (heq.symm ▸ h)
          rw [if_pos heq, if_neg hqp, if_pos heq]
        · rw [if_neg heq, ih]
          by_cases hqp : q = p
          · simp [hqp]
          · rw [if_neg hqp, if_neg hqp, if_neg heq]

theorem fsLookup_fsInsert (fs : FS) (p : String) (f : DiskFile)
    (q : String) :
    fsLookup (fsInsert fs p f) q = if q = p then some f else fsLookup fs q := by
  simp only [fsInsert, fsLookup]
  by_cases hqp : q = p
  · rw [if_pos hqp, if_pos hqp.symm]
  · rw [if_neg (fun h => hqp h.symm), fsLookup_fsRemove, if_neg hqp,
      if_neg hqp]

theorem fsLookup_fsRename_dst (fs : FS) (src dst : String) (f : DiskFile)
    (h : fsLookup fs src = some f) :
    fsLookup (fsRename fs src dst) dst = some f := by
  simp [fsRename, h, fsLookup_fsInsert]

theorem takeWhile_append_all {p : Char → Bool} (a b : List Char)
    (h : ∀ x ∈ a, p x = true) :
    (a ++ b).takeWhile p = a ++ b.takeWhile p := by
  induction a with
  | nil => simp
  | cons c t ih =>
      have hc := h c (List.mem_cons_self c t)
      simp [List.takeWhile_cons, hc,
        ih (fun x hx => h x (List.mem_cons_of_mem _ hx))]

theorem dropWhile_append_all {p : Char → Bool} (a b : List Char)
    (h : ∀ x ∈ a, p x = true) :
    (a ++ b).dropWhile p = b.dropWhile p := by
  induction a with
  | nil => simp
  | cons c t ih =>
      have hc := h c (List.mem_cons_self c t)
      simp [List.dropWhile_cons, hc,
        ih (fun x hx => h x (List.mem_cons_of_mem _ hx))]

/-- The tmp path used by `create_base_disk` is `<target>.tmp`: for a
target whose file name is `<stem>.qcow2` with a nonempty stem free of `/`
and `.`, `with_extension("qcow2.tmp")` appends exactly `.tmp`. -/
theorem withExtension_qcow2_tmp (target : String) (d s : List Char)
    (hshape : target.toList = d ++ '/' :: (s ++ ".qcow2".toList))
    (hsne : s ≠ []) (hs : ∀ c ∈ s, ¬ c = '/' ∧ ¬ c = '.') :
    withExtension target "qcow2.tmp" = target ++ ".tmp" := by
  have h1 : splitAtLastSlash target.toList =
      (d ++ ['/'], s ++ ".qcow2".toList) := by
    unfold splitAtLastSlash
    rw [hshape]
    have hrev : (d ++ '/' :: (s ++ ".qcow2".toList)).reverse =
        (['2', 'w', 'o', 'c', 'q', '.'] ++ s.reverse) ++ '/' :: d.reverse := by
      simp [List.reverse_append, List.append_assoc]
    rw [hrev]
    have hall : ∀ x ∈ ['2', 'w', 'o', 'c', 'q', '.'] ++ s.reverse,
        (decide ¬ x = '/') = true := by
      intro x hx
      rcases List.mem_append.mp hx with hlit | hsx
      · fin_cases hlit <;> decide
      · simp only [decide_eq_true_eq]
        exact (hs x (List.mem_reverse.mp hsx)).1
    rw [takeWhile_append_all _ _ hall, dropWhile_append_all _ _ hall]
    simp [List.takeWhile_cons, List.dropWhile_cons, List.reverse_append]
  have h2 : fileStem (s ++ ".qcow2".toList) = s := by
    unfold fileStem
    have hrev : (s ++ ".qcow2".toList).reverse =
        ['2', 'w', 'o', 'c', 'q'] ++ '.' :: s.reverse := by
      rw [List.reverse_append]
      rfl
    rw [hrev]
    have hall : ∀ x ∈ ['2', 'w', 'o', 'c', 'q'],
        (decide ¬ x = '.') = true := by decide
    rw [dropWhile_append_all _ _ hall]
    have hne : s.reverse.isEmpty = false := by
      simp [List.isEmpty_iff, hsne]
    simp [List.dropWhile_cons, hne]
  apply String.ext
  show (withExtension target "qcow2.tmp").toList = (target ++ ".tmp").toList
  unfold withExtension
  rw [show (⟨(splitAtLastSlash target.toList).1 ++
      fileStem (splitAtLastSlash target.toList).2 ++
      '.' :: "qcow2.tmp".toList⟩ : String).toList =
      (splitAtLastSlash target.toList).1 ++
      fileStem (splitAtLastSlash target.toList).2 ++
      '.' :: "qcow2.tmp".toList from rfl]
  rw [h1]
  simp only []
  rw [h2, strToList_append, hshape]
  simp [List.append_assoc]


/-- C1: base-disk creation installs to `<target>.tmp`; the result is `ok`
exactly when the producer succeeded, the metadata verified on the temp
file, and the rename succeeded — in which case the temp file is renamed
onto the final name, which then holds the produced, verified file; on any
error (producer failure, metadata-verification failure or error, or rename
failure) the temp file is unlinked and, as long as the producer only
touches the temp path, the final name is left exactly as it was, so no
in-progress state is ever observable at the final name. -/
theorem c1_create_base_disk_atomic (producer : FS → FS × Bool)
    (checker : FS → String → Except Unit Bool) (renameOk : Bool) (fs : FS)
    (target : String) (d s : List Char)
    (hshape : target.toList = d ++ '/' :: (s ++ ".qcow2".toList))
    (hsne : s ≠ []) (hs : ∀ c ∈ s, ¬ c = '/' ∧ ¬ c = '.') :
    withExtension target "qcow2.tmp" = target ++ ".tmp" ∧
    ((create_base_disk producer checker renameOk fs target).2 = .ok () ↔
      ((producer fs).2 = true ∧
       checker (producer fs).1 (target ++ ".tmp") = .ok true ∧
       renameOk = true)) ∧
    ((create_base_disk producer checker renameOk fs target).2 = .ok () →
      (create_base_disk producer checker renameOk fs target).1 =
        fsRename (producer fs).1 (target ++ ".tmp") target) ∧
    ((create_base_disk producer checker renameOk fs target).2 = .error () →
      (create_base_disk producer checker renameOk fs target).1 =
        fsRemove (producer fs).1 (target ++ ".tmp")) ∧
    ((create_base_disk producer checker renameOk fs target).2 = .error () →
      fsLookup (create_base_disk producer checker renameOk fs target).1
        (target ++ ".tmp") = none) ∧
    ((∀ q, ¬ q = target ++ ".tmp" →
        fsLookup (producer fs).1 q = fsLookup fs q) →
      (create_base_disk producer checker renameOk fs target).2 = .error () →
      fsLookup (create_base_disk producer checker renameOk fs target).1
        target = fsLookup fs target) ∧
    (∀ f, fsLookup (producer fs).1 (target ++ ".tmp") = some f →
      (create_base_disk producer checker renameOk fs target).2 = .ok () →
      fsLookup (create_base_disk producer checker renameOk fs target).1
        target = some f) := by
  have htmp := withExtension_qcow2_tmp target d s hshape hsne hs
  have htne : ¬ (target = target ++ ".tmp") := by
    intro h
    have hlen := congrArg (fun z : String => z.toList.length) h
    simp only [strToList_append, List.length_append] at hlen
    rw [show ".tmp".toList.length = 4 from rfl] at hlen
    omega
  have hclean : ∀ (g : FS),
      (∀ q, ¬ q = target ++ ".tmp" → fsLookup g q = fsLookup fs q) →
      fsLookup (fsRemove g (target ++ ".tmp")) target = fsLookup fs target :=
    fun g hg => by rw [fsLookup_fsRemove, if_neg htne, hg target htne]
  refine ⟨htmp, ?_⟩
  cases hp : (producer fs).2 with
  | false =>
      have hval : create_base_disk producer checker renameOk fs target =
          (fsRemove (producer fs).1 (target ++ ".tmp"), .error ()) := by
        unfold create_base_disk
        simp only []
        rw [htmp, hp]
        simp
      rw [hval]
      refine ⟨by simp [hp], by simp, fun _ => rfl, ?_, ?_, ?_⟩
      · intro _
        rw [fsLookup_fsRemove, if_pos rfl]
      · intro hg _
        exact hclean _ hg
      · intro f _ hcontra
        simp at hcontra
  | true =>
      cases hc : checker (producer fs).1 (target ++ ".tmp") with
      | error e =>
          have hval : create_base_disk producer checker renameOk fs target =
              (fsRemove (producer fs).1 (target ++ ".tmp"), .error ()) := by
            unfold create_base_disk
            simp only []
            rw [htmp, hp, hc]
            simp
          rw [hval]
          refine ⟨by simp [hc], by simp, fun _ => rfl, ?_, ?_, ?_⟩
          · intro _
            rw [fsLookup_fsRemove, if_pos rfl]
          · intro hg _
            exact hclean _ hg
          · intro f _ hcontra
            simp at hcontra
      | ok b =>
          cases b with
          | false =>
              have hval : create_base_disk producer checker renameOk fs
                  target =
                  (fsRemove (producer fs).1 (target ++ ".tmp"),
                    .error ()) := by
                unfold create_base_disk
                simp only []
                rw [htmp, hp, hc]
                simp
              rw [hval]
              refine ⟨by simp [hc], by simp, fun _ => rfl, ?_, ?_, ?_⟩
              · intro _
                rw [fsLookup_fsRemove, if_pos rfl]
              · intro hg _
                exact hclean _ hg
              · intro f _ hcontra
                simp at hcontra
          | true =>
              cases renameOk with
              | false =>
                  have hval : create_base_disk producer checker false fs
                      target =
                      (fsRemove (producer fs).1 (target ++ ".tmp"),
                        .error ()) := by
                    unfold create_base_disk
                    simp only []
                    rw [htmp, hp, hc]
                    simp
                  rw [hval]
                  refine ⟨by simp, by simp, fun _ => rfl, ?_, ?_, ?_⟩
                  · intro _
                    rw [fsLookup_fsRemove, if_pos rfl]
                  · intro hg _
                    exact hclean _ hg
                  · intro f _ hcontra
                    simp at hcontra
              | true =>
                  have hval : create_base_disk producer checker true fs
                      target =
                      (fsRename (producer fs).1 (target ++ ".tmp") target,
                        .ok ()) := by
                    unfold create_base_disk
                    simp only []
                    rw [htmp, hp, hc]
                    simp
                  rw [hval]
                  refine ⟨by simp [hp, hc], fun _ => rfl, by simp, ?_, ?_,
                    ?_⟩
                  · intro hcontra
                    simp at hcontra
                  · intro _ hcontra
                    simp at hcontra
                  · intro f hsome _
                    exact fsLookup_fsRename_dst _ _ _ _ hsome

/-- C1 witness: on a concrete empty pool, with a producer that writes the
temp file and a checker that verifies its record, creation succeeds and
the final name holds the produced, verified file. -/
theorem c1_create_base_disk_atomic_witness :
    (create_base_disk
        (fun g => (fsInsert g "/pool/bootc-base-aaaa.qcow2.tmp"
          ⟨"disk", some ⟨"sha256:img", "opts", ["quiet"]⟩⟩, true))
        (fun g p => .ok (check_cached_disk g p "sha256:img" "opts"
          ["quiet"]))
        true [] "/pool/bootc-base-aaaa.qcow2").2 = .ok () ∧
    fsLookup (create_base_disk
        (fun g => (fsInsert g "/pool/bootc-base-aaaa.qcow2.tmp"
          ⟨"disk", some ⟨"sha256:img", "opts", ["quiet"]⟩⟩, true))
        (fun g p => .ok (check_cached_disk g p "sha256:img" "opts"
          ["quiet"]))
        true [] "/pool/bootc-base-aaaa.qcow2").1
      "/pool/bootc-base-aaaa.qcow2" =
      some ⟨"disk", some ⟨"sha256:img", "opts", ["quiet"]⟩⟩ := by
  have h := c1_create_base_disk_atomic
    (fun g => (fsInsert g "/pool/bootc-base-aaaa.qcow2.tmp"
      ⟨"disk", some ⟨"sha256:img", "opts", ["quiet"]⟩⟩, true))
    (fun g p => .ok (check_cached_disk g p "sha256:img" "opts" ["quiet"]))
    true [] "/pool/bootc-base-aaaa.qcow2"
    "/pool".toList "bootc-base-aaaa".toList (by decide) (by decide)
    (by decide)
  refine ⟨h.2.1.mpr ⟨rfl, by rfl, rfl⟩, ?_⟩
  exact h.2.2.2.2.2.2 ⟨"disk", some ⟨"sha256:img", "opts", ["quiet"]⟩⟩
    (by rfl) (h.2.1.mpr ⟨rfl, by rfl, rfl⟩)


/-- C2: when the base disk exists but its xattr record does not match the
requested (image digest, install-options hash, kernel args), the lookup is
a miss: the stale file is removed and the same invocation rebuilds a base
disk at the same path — with a producer that writes a file carrying the
requested record to the temp path, the invocation returns that same path
and the path then holds the newly produced, matching file; with a failing
producer, the invocation fails and the stale file is gone (removed before
the rebuild was attempted). -/
theorem c2_stale_cache_removed_and_rebuilt
    (computeCacheHash : String → String → List String → String)
    (pool digest optsHash : String) (kargs : List String) (fs : FS)
    (f new : DiskFile) (ch path : String)
    (hch : ch = computeCacheHash digest optsHash kargs)
    (hpath : path = baseDiskPathOf pool ch)
    (hchars : ∀ c ∈ (shortHashOf ch).toList, ¬ c = '/' ∧ ¬ c = '.')
    (hex : fsLookup fs path = some f)
    (hmis : ¬ f.meta = some ⟨digest, optsHash, kargs⟩)
    (hnew : new.meta = some ⟨digest, optsHash, kargs⟩) :
    (∀ producer : FS → FS × Bool,
      producer (fsRemove fs path) =
        (fsInsert (fsRemove fs path) (path ++ ".tmp") new, true) →
      (find_or_create_base_disk computeCacheHash producer true fs pool
        digest optsHash kargs).2 = .ok path ∧
      fsLookup (find_or_create_base_disk computeCacheHash producer true fs
        pool digest optsHash kargs).1 path = some new) ∧
    (∀ producer : FS → FS × Bool,
      producer (fsRemove fs path) = (fsRemove fs path, false) →
      (find_or_create_base_disk computeCacheHash producer true fs pool
        digest optsHash kargs).2 = .error () ∧
      fsLookup (find_or_create_base_disk computeCacheHash producer true fs
        pool digest optsHash kargs).1 path = none) := by
  have hplist : path.toList = pool.toList ++ '/' ::
      (("bootc-base-" ++ shortHashOf ch).toList ++ ".qcow2".toList) := by
    rw [hpath]
    simp [baseDiskPathOf, baseDiskNameOf, strToList_append,
      List.append_assoc]
  have hsne : ("bootc-base-" ++ shortHashOf ch).toList ≠ [] := by
    simp [strToList_append]
  have hschars : ∀ c ∈ ("bootc-base-" ++ shortHashOf ch).toList,
      ¬ c = '/' ∧ ¬ c = '.' := by
    intro c hc
    rw [strToList_append] at hc
    rcases List.mem_append.mp hc with h | h
    · exact (by decide :
        ∀ c ∈ "bootc-base-".toList, ¬ c = '/' ∧ ¬ c = '.') c h
    · exact hchars c h
  have htmp : withExtension path "qcow2.tmp" = path ++ ".tmp" :=
    withExtension_qcow2_tmp path pool.toList _ hplist hsne hschars
  have hptne : ¬ path = path ++ ".tmp" := by
    intro h
    have hlen := congrArg (fun z : String => z.toList.length) h
    simp only [strToList_append, List.length_append] at hlen
    rw [show ".tmp".toList.length = 4 from rfl] at hlen
    omega
  have hexists : fsExists fs path = true := by simp [fsExists, hex]
  have hck : check_cached_disk fs path digest optsHash kargs = false := by
    simp only [check_cached_disk, hex]
    rw [beq_eq_false_iff_ne]
    exact hmis
  constructor
  · intro producer hprod
    have hcheck : check_cached_disk
        (fsInsert (fsRemove fs path) (path ++ ".tmp") new)
        (path ++ ".tmp") digest optsHash kargs = true := by
      simp [check_cached_disk, fsLookup_fsInsert, hnew]
    have hcreate : create_base_disk producer
        (fun g p => .ok (check_cached_disk g p digest optsHash kargs)) true
        (fsRemove fs path) path =
        (fsRename (fsInsert (fsRemove fs path) (path ++ ".tmp") new)
          (path ++ ".tmp") path, .ok ()) := by
      unfold create_base_disk
      simp only []
      rw [htmp, hprod]
      simp [hcheck]
    have hfoc : find_or_create_base_disk computeCacheHash producer true fs
        pool digest optsHash kargs =
        (fsRename (fsInsert (fsRemove fs path) (path ++ ".tmp") new)
          (path ++ ".tmp") path, .ok path) := by
      unfold find_or_create_base_disk
      simp only []
      rw [← hch, ← hpath, hexists, hck, hcreate]
      simp
    rw [hfoc]
    refine ⟨rfl, ?_⟩
    apply fsLookup_fsRename_dst
    rw [fsLookup_fsInsert, if_pos rfl]
  · intro producer hprod
    have hcreate : create_base_disk producer
        (fun g p => .ok (check_cached_disk g p digest optsHash kargs)) true
        (fsRemove fs path) path =
        (fsRemove (fsRemove fs path) (path ++ ".tmp"), .error ()) := by
      unfold create_base_disk
      simp only []
      rw [htmp, hprod]
      simp
    have hfoc : find_or_create_base_disk computeCacheHash producer true fs
        pool digest optsHash kargs =
        (fsRemove (fsRemove fs path) (path ++ ".tmp"), .error ()) := by
      unfold find_or_create_base_disk
      simp only []
      rw [← hch, ← hpath, hexists, hck, hcreate]
      simp
    rw [hfoc]
    refine ⟨rfl, ?_⟩
    rw [fsLookup_fsRemove, if_neg hptne, fsLookup_fsRemove, if_pos rfl]

/-- C2 witness: a pool holding a stale base disk (no metadata record) for
the requested key; the invocation removes it, rebuilds at the same path,
and returns that path with the new verified file in place. -/
theorem c2_stale_cache_removed_and_rebuilt_witness :
    (find_or_create_base_disk (fun _ _ _ => "sha256:0123456789abcdefff")
        (fun g => (fsInsert g
          "/pool/bootc-base-0123456789abcdef.qcow2.tmp"
          ⟨"newdisk", some ⟨"sha256:img", "opts", ["quiet"]⟩⟩, true))
        true
        [("/pool/bootc-base-0123456789abcdef.qcow2", ⟨"old", none⟩)]
        "/pool" "sha256:img" "opts" ["quiet"]).2 =
      .ok "/pool/bootc-base-0123456789abcdef.qcow2" ∧
    fsLookup (find_or_create_base_disk
        (fun _ _ _ => "sha256:0123456789abcdefff")
        (fun g => (fsInsert g
          "/pool/bootc-base-0123456789abcdef.qcow2.tmp"
          ⟨"newdisk", some ⟨"sha256:img", "opts", ["quiet"]⟩⟩, true))
        true
        [("/pool/bootc-base-0123456789abcdef.qcow2", ⟨"old", none⟩)]
        "/pool" "sha256:img" "opts" ["quiet"]).1
      "/pool/bootc-base-0123456789abcdef.qcow2" =
      some ⟨"newdisk", some ⟨"sha256:img", "opts", ["quiet"]⟩⟩ := by
  have h := c2_stale_cache_removed_and_rebuilt
    (fun _ _ _ => "sha256:0123456789abcdefff")
    "/pool" "sha256:img" "opts" ["quiet"]
    [("/pool/bootc-base-0123456789abcdef.qcow2", ⟨"old", none⟩)]
    ⟨"old", none⟩ ⟨"newdisk", some ⟨"sha256:img", "opts", ["quiet"]⟩⟩
    "sha256:0123456789abcdefff" "/pool/bootc-base-0123456789abcdef.qcow2"
    rfl (by decide) (by decide) (by decide) (by decide) rfl
  exact h.1 _ (by decide)


/-! ### Lemmas and theorems for C10 ([Install]-section credentials) -/

theorem stripPrefix_wantedBy_not_requiredBy (t : List Char)
    (h : stripPrefixChars t ("WantedBy=".toList) ≠ none) :
    stripPrefixChars t ("RequiredBy=".toList) = none := by
  unfold stripPrefixChars at h ⊢
  split at h
  · rename_i hpre
    obtain ⟨tail, rfl⟩ := List.isPrefixOf_iff_prefix.mp hpre
    rw [if_neg]
    intro hcontra
    exact absurd hcontra (by rw [show ("RequiredBy=".toList.isPrefixOf
      ("WantedBy=".toList ++ tail)) = false from rfl]; simp)
  · exact absurd rfl h

theorem collect_eq_annotate (lines : List (List Char)) :
    ∀ cur : Option (List Char),
      collectInstallTargets lines (cur == some ("[install]".toList)) =
        ((annotateSections cur lines).flatMap fun st =>
          if st.1 = some ("[install]".toList) then
            match stripPrefixChars st.2 ("WantedBy=".toList) with
            | some targets => splitWhitespace targets
            | none => []
          else [],
         (annotateSections cur lines).flatMap fun st =>
          if st.1 = some ("[install]".toList) then
            match stripPrefixChars st.2 ("RequiredBy=".toList) with
            | some targets => splitWhitespace targets
            | none => []
          else []) := by
  induction lines with
  | nil => intro cur; rfl
  | cons l rest ih =>
      intro cur
      unfold collectInstallTargets annotateSections
      simp only []
      by_cases hh : ("[".toList.isPrefixOf (trimChars l)) = true
      · rw [if_pos hh, if_pos hh]
        have harg : eqIgnoreAsciiCase (trimChars l) ("[Install]".toList) =
            (some ((trimChars l).map asciiLower) ==
              some ("[install]".toList)) := by
          unfold eqIgnoreAsciiCase
          rw [show ("[Install]".toList).map asciiLower =
            "[install]".toList from by decide]
          rfl
        rw [harg, ih]
      · rw [if_neg hh, if_neg hh]
        simp only [List.flatMap_cons]
        by_cases hcur : cur = some ("[install]".toList)
        · have hbeq : (cur == some ("[install]".toList)) = true := by
            rw [hcur]
            exact beq_self_eq_true _
          rw [hbeq]
          simp only [Bool.not_true, Bool.false_eq_true, if_false]
          have ih2 := ih cur
          rw [hbeq] at ih2
          rw [if_pos hcur, if_pos hcur]
          cases hw : stripPrefixChars (trimChars l) ("WantedBy=".toList) with
          | some targets =>
              have hr : stripPrefixChars (trimChars l)
                  ("RequiredBy=".toList) = none :=
                stripPrefix_wantedBy_not_requiredBy _ (by rw [hw]; simp)
              rw [hr]
              simp only []
              rw [ih2]
              simp only [List.nil_append]
          | none =>
              cases hr : stripPrefixChars (trimChars l)
                  ("RequiredBy=".toList) with
              | some targets =>
                  simp only []
                  rw [ih2]
                  simp only [List.nil_append]
              | none =>
                  simp only []
                  rw [ih2]
                  simp only [List.nil_append]
        · have hbeq : (cur == some ("[install]".toList)) = false := by
            rw [beq_eq_false_iff_ne]
            exact hcur
          rw [hbeq]
          simp only [Bool.not_false, if_true]
          have ih2 := ih cur
          rw [hbeq] at ih2
          rw [if_neg hcur, if_neg hcur, ih2]
          simp only [List.nil_append]

theorem b64Val_b64Char (v : Nat) (h : v < 64) : b64Val (b64Char v) = v := by
  have hall : ∀ v ∈ List.range 64, b64Val (b64Char v) = v := by decide
  exact hall v (List.mem_range.mpr h)

theorem b64Char_ne_pad (v : Nat) (h : v < 64) : ¬ b64Char v = '=' := by
  have hall : ∀ v ∈ List.range 64, ¬ b64Char v = '=' := by decide
  exact hall v (List.mem_range.mpr h)

theorem b64Decode_pad2 (c1 c2 : Char) :
    b64Decode [c1, c2, '=', '='] = [b64Val c1 * 4 + b64Val c2 / 16] := by
  simp [b64Decode]

theorem b64Decode_pad1 (c1 c2 c3 : Char) (h : ¬ c3 = '=') :
    b64Decode [c1, c2, c3, '='] =
      [b64Val c1 * 4 + b64Val c2 / 16,
       b64Val c2 % 16 * 16 + b64Val c3 / 4] := by
  simp [b64Decode, h]

theorem b64Decode_full (c1 c2 c3 c4 : Char) (rest : List Char)
    (h3 : ¬ c3 = '=') (h4 : ¬ c4 = '=') :
    b64Decode (c1 :: c2 :: c3 :: c4 :: rest) =
      (b64Val c1 * 4 + b64Val c2 / 16) ::
        (b64Val c2 % 16 * 16 + b64Val c3 / 4) ::
        (b64Val c3 % 4 * 64 + b64Val c4) :: b64Decode rest := by
  simp [b64Decode, h3, h4]

/-- Standard base64 decoding inverts `b64Encode` on byte lists. -/
theorem b64_decode_encode (l : List Nat) (hb : ∀ b ∈ l, b < 256) :
    b64Decode (b64Encode l) = l := by
  have H : ∀ (n : Nat) (l : List Nat), l.length ≤ n →
      (∀ b ∈ l, b < 256) → b64Decode (b64Encode l) = l := by
    intro n
    induction n with
    | zero =>
        intro l hl _
        cases l with
        | nil => rfl
        | cons a t => simp at hl
    | succ n ih =>
        intro l hl hbl
        rcases l with _ | ⟨a, _ | ⟨b, _ | ⟨c, rest⟩⟩⟩
        · rfl
        · have ha := hbl a (by simp)
          rw [show b64Encode [a] =
            [b64Char (a / 4), b64Char (a % 4 * 16), '=', '='] from rfl,
            b64Decode_pad2, b64Val_b64Char _ (by omega),
            b64Val_b64Char _ (by omega)]
          simp only [List.cons.injEq, and_true]
          omega
        · have ha := hbl a (by simp)
          have hb2 := hbl b (by simp)
          rw [show b64Encode [a, b] =
            [b64Char (a / 4), b64Char (a % 4 * 16 + b / 16),
             b64Char (b % 16 * 4), '='] from rfl,
            b64Decode_pad1 _ _ _ (b64Char_ne_pad _ (by omega)),
            b64Val_b64Char _ (by omega), b64Val_b64Char _ (by omega),
            b64Val_b64Char _ (by omega)]
          simp only [List.cons.injEq, and_true]
          refine ⟨by omega, by omega⟩
        · have ha := hbl a (by simp)
          have hb2 := hbl b (by simp)
          have hc := hbl c (by simp)
          have hrest : ∀ x ∈ rest, x < 256 := fun x hx =>
            hbl x (by simp [hx])
          have hlen : rest.length ≤ n := by
            simp only [List.length_cons] at hl
            omega
          rw [show b64Encode (a :: b :: c :: rest) =
            b64Char (a / 4) :: b64Char (a % 4 * 16 + b / 16) ::
              b64Char (b % 16 * 4 + c / 64) :: b64Char (c % 64) ::
              b64Encode rest from rfl,
            b64Decode_full _ _ _ _ _ (b64Char_ne_pad _ (by omega))
              (b64Char_ne_pad _ (by omega)),
            b64Val_b64Char _ (by omega), b64Val_b64Char _ (by omega),
            b64Val_b64Char _ (by omega), b64Val_b64Char _ (by omega),
            ih rest hlen hrest]
          simp only [List.cons.injEq]
          exact ⟨by omega, by omega, by omega, trivial⟩
  exact H l.length l (le_refl _) hb

theorem utf8Char_bytes_lt (c : Char) : ∀ b ∈ utf8Char c, b < 256 := by
  have he : c.toNat = c.val.toNat := rfl
  have hv : c.toNat < 1114112 := by
    rcases c.valid with h | ⟨h1, h2⟩ <;> omega
  intro b hb
  unfold utf8Char at hb
  split at hb
  · simp only [List.mem_singleton] at hb
    omega
  · split at hb
    · simp only [List.mem_cons, List.mem_singleton] at hb
      rcases hb with hb | hb | hb <;> first | omega | cases hb
    · split at hb
      · simp only [List.mem_cons, List.mem_singleton] at hb
        rcases hb with hb | hb | hb | hb <;> first | omega | cases hb
      · simp only [List.mem_cons, List.mem_singleton] at hb
        rcases hb with hb | hb | hb | hb | hb <;> first | omega | cases hb

theorem utf8Bytes_lt (s : List Char) : ∀ b ∈ utf8Bytes s, b < 256 := by
  intro b hb
  unfold utf8Bytes at hb
  rw [List.mem_flatMap] at hb
  obtain ⟨c, _, hc⟩ := hb
  exact utf8Char_bytes_lt c b hc

/-- C10: the [Install]-section credential generator returns exactly one
SMBIOS unit-dropin credential per target named in a `WantedBy=` line and
one per target named in a `RequiredBy=` line of the content's `[Install]`
section — all WantedBy drop-ins (payload `[Unit]\nWants=<unit name>\n`,
base64-encoded) preceding all RequiredBy drop-ins (payload
`[Unit]\nRequires=<unit name>\n`) — and the empty list when the content
has no `[Install]` section (then both target lists are empty); directives
outside `[Install]` are ignored.  The base64 payloads decode back to
exactly the declared drop-in contents. -/
theorem c10_install_section_creds (unit_name unit_content : List Char) :
    smbios_creds_for_install_section unit_name unit_content =
      (installSectionTargets ("WantedBy=".toList) unit_content).map
        (fun target => dropinCred target unit_name ("Wants".toList)) ++
      (installSectionTargets ("RequiredBy=".toList) unit_content).map
        (fun target => dropinCred target unit_name ("Requires".toList)) ∧
    b64Decode (b64Encode (utf8Bytes ("[Unit]\n".toList ++ "Wants".toList ++
        "=".toList ++ unit_name ++ "\n".toList))) =
      utf8Bytes ("[Unit]\n".toList ++ "Wants".toList ++ "=".toList ++
        unit_name ++ "\n".toList) ∧
    b64Decode (b64Encode (utf8Bytes ("[Unit]\n".toList ++
        "Requires".toList ++ "=".toList ++ unit_name ++ "\n".toList))) =
      utf8Bytes ("[Unit]\n".toList ++ "Requires".toList ++ "=".toList ++
        unit_name ++ "\n".toList) := by
  refine ⟨?_, b64_decode_encode _ (utf8Bytes_lt _),
    b64_decode_encode _ (utf8Bytes_lt _)⟩
  unfold smbios_creds_for_install_section installSectionTargets
  simp only []
  have h := collect_eq_annotate (rustLines unit_content) none
  rw [show ((none : Option (List Char)) ==
    some ("[install]".toList)) = false from rfl] at h
  rw [h]

end Bcvk
